import Mathlib

/-!
Shallow embedding of the stats secondary-index subsystem:
matchers over metric names, the thread-safe index container `StatsIndex`,
the aggregation layer `AggregatedStatsIndex`, the registry
`IndexedStatsStore`, and the declarative-configuration factory
`StatsIndexFactory`.

Modelling conventions.  C++ `std::string` names are Lean `String`s and the
absl prefix/suffix/substring checks operate on their character lists.
`uint64_t` arithmetic is `Nat` arithmetic taken `% 2^64` exactly where the
C++ performs a wrapping operation.  A metric object is identified by a
`Metric` value (the `id` field stands for the object's address, so two
structurally equal `Metric` values denote the same object); the hash set of
metric pointers is a `List Metric` mutated only through set-like insert and
erase.  Since mutexes serialise every container operation in the source,
operations are modelled as pure state transformers.  A metric's current
numeric reading is supplied by a valuation `v : Metric → Nat` (values are
read live from the externally owned metric).
-/

namespace EnvoyStats

/-- Word size of `uint64_t` arithmetic. -/
def U64 : Nat := 2 ^ 64

/-- `UINT64_MAX`, the sentinel used by the `min` aggregations. -/
def U64MAX : Nat := 2 ^ 64 - 1

/-- A metric (externally owned Counter or Gauge).  `id` models the object's
address (pointer identity), `name` the immutable stat name string, and
`statName` the interned `StatName` handle that a `SymbolTable` decodes back
to a string. -/
structure Metric where
  id : Nat
  name : String
  statName : Nat
deriving DecidableEq, Repr

/-- A symbol table is modelled by its only use here: decoding an interned
`StatName` handle to a string (`SymbolTable::toString`). -/
def SymbolTable : Type := Nat → String

/-- Embeds `StatsIndex<T>` from `envoy/stats/stats_index.h`: the index name,
the owned matcher (its pure predicate over the name string), and the member
set `metrics_set_` of non-owning metric references. -/
structure StatsIndex where
  name : String
  matcher : String → Bool
  metrics_set : List Metric

namespace StatsIndex

/-- `absl::flat_hash_set::insert`: set-semantics insertion, a no-op when the
element is already present. -/
def insertMetric (s : List Metric) (m : Metric) : List Metric :=
  if m ∈ s then s else m :: s

/-- `absl::flat_hash_set::erase`: removes the element if present, a no-op
otherwise. -/
def eraseMetric (s : List Metric) (m : Metric) : List Metric :=
  s.filter (fun x => x ≠ m)

/-- `StatsIndex::tryAdd`: if the matcher rejects the metric's name, return
`false` leaving the set untouched; otherwise insert into the set and return
`true` (whether matched, not whether newly inserted). -/
def tryAdd (idx : StatsIndex) (m : Metric) : Bool × StatsIndex :=
  if idx.matcher m.name then
    (true, { idx with metrics_set := insertMetric idx.metrics_set m })
  else
    (false, idx)

/-- `StatsIndex::tryAddWithStatName`: matches via
`matcher_->matchesStatName(metric.statName(), symbol_table)`.  Every matcher
in the source implements `matchesStatName` by decoding the `StatName` through
the symbol table and delegating to the string path (the documented default,
which `PrefixSuffixIndexMatcher` and `OrIndexMatcher` reproduce), so the
fast path is `matcher (st metric.statName)`. -/
def tryAddWithStatName (st : SymbolTable) (idx : StatsIndex) (m : Metric) :
    Bool × StatsIndex :=
  if idx.matcher (st m.statName) then
    (true, { idx with metrics_set := insertMetric idx.metrics_set m })
  else
    (false, idx)

/-- `StatsIndex::remove`: erase the reference if present; absent is a no-op. -/
def remove (idx : StatsIndex) (m : Metric) : StatsIndex :=
  { idx with metrics_set := eraseMetric idx.metrics_set m }

/-- `StatsIndex::size`. -/
def size (idx : StatsIndex) : Nat := idx.metrics_set.length

/-- `StatsIndex::empty`. -/
def emptyB (idx : StatsIndex) : Bool := idx.metrics_set.isEmpty

/-- `StatsIndex::clear`. -/
def clear (idx : StatsIndex) : StatsIndex := { idx with metrics_set := [] }

end StatsIndex

/- `AggregatedStatsIndex<T>` from `aggregated_stats_index.h` adds
on-demand reductions over the member set, reading each metric's current
`value()` through the valuation `v`.  The source iterates via `forEach`
in unspecified hash order; every reduction below is order-insensitive, so a
fold over the model's list is faithful. -/
namespace AggregatedStatsIndex

open StatsIndex

/-- `AggregatedStatsIndex::sum`: `uint64_t total = 0; total += value()` over
the set; each `+=` wraps modulo `2^64`. -/
def sum (idx : StatsIndex) (v : Metric → Nat) : Nat :=
  idx.metrics_set.foldl (fun total m => (total + v m) % U64) 0

/-- `AggregatedStatsIndex::count`: delegates to `size()`. -/
def count (idx : StatsIndex) (v : Metric → Nat) : Nat :=
  let _ := v
  idx.size

/-- `AggregatedStatsIndex::average`: `0.0` when the set is empty, otherwise
`double(sum) / double(n)`.  The double division is modelled as exact
rational division; the empty branch — the only one the claims touch — is
exact in the source as well (it returns the literal `0.0`). -/
def average (idx : StatsIndex) (v : Metric → Nat) : ℚ :=
  let n := idx.size
  if n = 0 then 0 else (sum idx v : ℚ) / (n : ℚ)

/-- `AggregatedStatsIndex::min`: fold `if (val < result) result = val` from
the sentinel `UINT64_MAX`. -/
def minV (idx : StatsIndex) (v : Metric → Nat) : Nat :=
  idx.metrics_set.foldl (fun result m => if v m < result then v m else result) U64MAX

/-- `AggregatedStatsIndex::max`: fold `if (val > result) result = val` from `0`. -/
def maxV (idx : StatsIndex) (v : Metric → Nat) : Nat :=
  idx.metrics_set.foldl (fun result m => if v m > result then v m else result) 0

/-- `AggregatedStatsIndex::aggregate`: generic single-pass fold with a
caller-supplied combining function over the metrics' current values. -/
def aggregate {α : Type} (idx : StatsIndex) (v : Metric → Nat) (initial : α)
    (fn : α → Nat → α) : α :=
  idx.metrics_set.foldl (fun result m => fn result (v m)) initial

/-- One step of `AggregatedStatsIndex::computeStats`'s single-pass loop over
the accumulator `(out_sum, out_min, out_max, out_count)`. -/
def statsStep (v : Metric → Nat) (acc : Nat × Nat × Nat × Nat) (m : Metric) :
    Nat × Nat × Nat × Nat :=
  let val := v m
  ((acc.1 + val) % U64,
   if val < acc.2.1 then val else acc.2.1,
   if val > acc.2.2.1 then val else acc.2.2.1,
   acc.2.2.2 + 1)

/-- The trailing `if (out_count == 0) { out_min = 0; }` correction of
`computeStats`. -/
def fixEmptyMin (r : Nat × Nat × Nat × Nat) : Nat × Nat × Nat × Nat :=
  if r.2.2.2 = 0 then (r.1, 0, r.2.2.1, r.2.2.2) else r

/-- `AggregatedStatsIndex::computeStats`: initialise
`(0, UINT64_MAX, 0, 0)`, run the single pass, then correct the `min`
sentinel to `0` when `out_count == 0`. -/
def computeStats (idx : StatsIndex) (v : Metric → Nat) : Nat × Nat × Nat × Nat :=
  fixEmptyMin (idx.metrics_set.foldl (statsStep v) (0, U64MAX, 0, 0))

end AggregatedStatsIndex

/-- `PrefixSuffixIndexMatcher::matches` from `index_matcher_impl.cc`:
reject when a non-empty prefix fails `absl::StartsWith`, reject when a
non-empty suffix fails `absl::EndsWith`, otherwise accept.  (`pre`/`suf`
embed the `prefix_`/`suffix_` members.) -/
def psMatches (pre suf n : String) : Bool :=
  if pre != "" && !(pre.data.isPrefixOf n.data) then false
  else if suf != "" && !(suf.data.isSuffixOf n.data) then false
  else true

/-- Outcomes of a fallible operation.  `fatal` embeds the `PANIC` macro
(hard process abort, not catchable); `recoverable` embeds a thrown
`EnvoyException` (catchable by the bootstrap/reload caller, e.g. from
`Regex::Utility::parseStdRegex` on an invalid pattern). -/
inductive Failure where
  | fatal (msg : String)
  | recoverable (msg : String)
deriving DecidableEq, Repr

/-- Embeds `IndexedStatsStore` from `indexed_stats_store.h`: two partitioned
name-to-index mappings, one for gauge indices and one for counter indices.
`absl::flat_hash_map` is modelled as an association list queried with
`List.lookup`; insertion order is irrelevant to the map semantics, so a new
binding is consed at the front.  The base store's metric population is
passed explicitly to the operations that enumerate it. -/
structure IndexedStatsStore where
  gauge_indices : List (String × StatsIndex)
  counter_indices : List (String × StatsIndex)

namespace IndexedStatsStore

open StatsIndex

/-- `IndexedStatsStore::registerGaugeIndex`: `PANIC` when the name is
already bound in the gauge partition, otherwise bind a fresh empty index. -/
def registerGaugeIndex (st : IndexedStatsStore) (name : String)
    (matcher : String → Bool) : Except Failure IndexedStatsStore :=
  match st.gauge_indices.lookup name with
  | some _ => .error (.fatal ("Gauge index '" ++ name ++ "' already exists"))
  | none =>
      .ok { st with gauge_indices := (name, ⟨name, matcher, []⟩) :: st.gauge_indices }

/-- `IndexedStatsStore::registerCounterIndex`: the counter-partition twin. -/
def registerCounterIndex (st : IndexedStatsStore) (name : String)
    (matcher : String → Bool) : Except Failure IndexedStatsStore :=
  match st.counter_indices.lookup name with
  | some _ => .error (.fatal ("Counter index '" ++ name ++ "' already exists"))
  | none =>
      .ok { st with counter_indices := (name, ⟨name, matcher, []⟩) :: st.counter_indices }

/-- The backfill loop of the `WithExisting` registration paths:
`base_store_.forEach…` calling `index.tryAdd(metric)` on each existing
metric of the kind. -/
def backfill (idx : StatsIndex) (existing : List Metric) : StatsIndex :=
  existing.foldl (fun i m => (i.tryAdd m).2) idx

/-- `IndexedStatsStore::registerGaugeIndexWithExisting`: register (may
`PANIC` on a duplicate name), then populate the new index from the base
store's current gauges via `tryAdd`. -/
def registerGaugeIndexWithExisting (st : IndexedStatsStore) (gauges : List Metric)
    (name : String) (matcher : String → Bool) : Except Failure IndexedStatsStore :=
  match st.gauge_indices.lookup name with
  | some _ => .error (.fatal ("Gauge index '" ++ name ++ "' already exists"))
  | none =>
      .ok { st with gauge_indices :=
              (name, backfill ⟨name, matcher, []⟩ gauges) :: st.gauge_indices }

/-- `IndexedStatsStore::registerCounterIndexWithExisting`. -/
def registerCounterIndexWithExisting (st : IndexedStatsStore) (counters : List Metric)
    (name : String) (matcher : String → Bool) : Except Failure IndexedStatsStore :=
  match st.counter_indices.lookup name with
  | some _ => .error (.fatal ("Counter index '" ++ name ++ "' already exists"))
  | none =>
      .ok { st with counter_indices :=
              (name, backfill ⟨name, matcher, []⟩ counters) :: st.counter_indices }

/-- `IndexedStatsStore::getGaugeIndex`: map lookup, `none` when absent. -/
def getGaugeIndex (st : IndexedStatsStore) (name : String) : Option StatsIndex :=
  st.gauge_indices.lookup name

/-- `IndexedStatsStore::getCounterIndex`. -/
def getCounterIndex (st : IndexedStatsStore) (name : String) : Option StatsIndex :=
  st.counter_indices.lookup name

/-- `IndexedStatsStore::onGaugeCreated`: fan the new gauge out to every
gauge index via `tryAdd`, with no short-circuit; the counter partition is
not touched. -/
def onGaugeCreated (st : IndexedStatsStore) (g : Metric) : IndexedStatsStore :=
  { st with gauge_indices := st.gauge_indices.map (fun p => (p.1, (p.2.tryAdd g).2)) }

/-- `IndexedStatsStore::onCounterCreated`. -/
def onCounterCreated (st : IndexedStatsStore) (c : Metric) : IndexedStatsStore :=
  { st with counter_indices := st.counter_indices.map (fun p => (p.1, (p.2.tryAdd c).2)) }

/-- `IndexedStatsStore::onGaugeDeleted`: fan `remove` out to every gauge index. -/
def onGaugeDeleted (st : IndexedStatsStore) (g : Metric) : IndexedStatsStore :=
  { st with gauge_indices := st.gauge_indices.map (fun p => (p.1, p.2.remove g)) }

/-- `IndexedStatsStore::onCounterDeleted`. -/
def onCounterDeleted (st : IndexedStatsStore) (c : Metric) : IndexedStatsStore :=
  { st with counter_indices := st.counter_indices.map (fun p => (p.1, p.2.remove c)) }

end IndexedStatsStore

/-- A single-character regex item: a literal character or the wildcard `.`. -/
inductive RAtom where
  | lit (c : Char)
  | dot
deriving DecidableEq, Repr

/-- A token of the modelled regex language: an atom, a Kleene-starred atom,
or a `^`/`$` anchor. -/
inductive RTok where
  | atom (a : RAtom)
  | star (a : RAtom)
  | startAnchor
  | endAnchor
deriving DecidableEq, Repr

/-- The regex metacharacters of the modelled fragment (ECMAScript special
characters).  `Char.ofNat 123`/`125` are the curly braces. -/
def isRegexMeta (c : Char) : Bool :=
  c == '.' || c == '*' || c == '^' || c == '$' || c == '\\' || c == '+' ||
  c == '?' || c == '(' || c == ')' || c == '[' || c == ']' || c == '|' ||
  c == Char.ofNat 123 || c == Char.ofNat 125

/-- Parses one pattern character into an atom: `.` is the wildcard, any
other metacharacter is unsupported, everything else is a literal. -/
def parseAtom (c : Char) : Option RAtom :=
  if c == '.' then some .dot
  else if isRegexMeta c then none
  else some (.lit c)

/-- Parses one pattern character that is not followed by `*`: the anchors
`^` and `$`, or an atom. -/
def parseHead (c : Char) : Option RTok :=
  if c = '^' then some .startAnchor
  else if c = '$' then some .endAnchor
  else (parseAtom c).map RTok.atom

/-- Parses a pattern into tokens: an atom followed by `*` becomes a starred
atom, any other character parses through `parseHead`.  `none` models a
pattern the compiler rejects. -/
def parseRegex : List Char → Option (List RTok)
  | [] => some []
  | [c] => (parseHead c).map (fun t => [t])
  | c :: d :: rest =>
      if d = '*' then
        match parseAtom c with
        | some a => (parseRegex rest).map (fun ts => RTok.star a :: ts)
        | none => none
      else
        match parseHead c with
        | some t => (parseRegex (d :: rest)).map (fun ts => t :: ts)
        | none => none

/-- Whether an atom accepts a character. -/
def atomMatch : RAtom → Char → Bool
  | .dot, _ => true
  | .lit c, d => c == d

/-- Full-string regex matching (`std::regex_match` semantics), fuel-indexed
so that it is structurally recursive.  `atStart` records whether no input
character has been consumed yet, which is what the `^` anchor asserts;
`$` asserts that no input remains.  Any fuel above
`tokens.length + input.length` is sufficient (`rmatch_congr` below). -/
def rmatch : Nat → List RTok → Bool → List Char → Bool
  | 0, _, _, _ => false
  | _ + 1, [], _, s => s.isEmpty
  | f + 1, .startAnchor :: ts, atStart, s => atStart && rmatch f ts atStart s
  | f + 1, .endAnchor :: ts, atStart, s => s.isEmpty && rmatch f ts atStart s
  | _ + 1, .atom _ :: _, _, [] => false
  | f + 1, .atom a :: ts, _, c :: s => atomMatch a c && rmatch f ts false s
  | f + 1, .star a :: ts, atStart, s =>
      rmatch f ts atStart s ||
      (match s with
       | [] => false
       | c :: s2 => atomMatch a c && rmatch f (.star a :: ts) false s2)

/-- The compiled matcher's `match` on a name: parse the pattern and run the
full-string match with sufficient fuel. -/
def stdRegexMatch (pattern n : String) : Bool :=
  match parseRegex pattern.data with
  | some ts => rmatch (ts.length + n.data.length + 1) ts true n.data
  | none => false

/-- Modelled from the spec: `Regex::Utility::parseStdRegex` is not part of
the source slice; per the spec a regex matcher "matches iff the full name
matches the pattern" and "construction fails if the pattern is invalid",
surfaced "as a recoverable failure" (a thrown `EnvoyException`).  The regex
language is modelled by the fragment the factory-built patterns use:
literals, `.`, postfix `*`, and the `^`/`$` anchors; patterns using other
metacharacters are treated as unsupported (construction failure). -/
def parseStdRegex (pattern : String) : Except Failure (List RTok) :=
  match parseRegex pattern.data with
  | some ts => .ok ts
  | none => .error (.recoverable ("Invalid regex '" ++ pattern ++ "'"))

/-- Modelled from the spec: `Regex::Utility::replaceAllToLower`, applied by
the factory to `exact` and `contains` values, is not part of the source
slice; per its name it lowercases the string (`Char.toLower` on every
character). -/
def replaceAllToLower (s : String) : String :=
  String.mk (s.data.map Char.toLower)

/-- The concrete `IndexMatcher` implementation the factory instantiated:
a `PrefixSuffixIndexMatcher` with the given prefix/suffix, or a
`RegexIndexMatcher` compiled from the given pattern. -/
inductive CreatedMatcher where
  | prefixSuffix (pre suf : String)
  | regex (pattern : String)
deriving DecidableEq, Repr

/-- `IndexMatcher::matches` of the factory-created matcher. -/
def CreatedMatcher.matches : CreatedMatcher → String → Bool
  | .prefixSuffix p s, n => psMatches p s n
  | .regex pat, n => stdRegexMatch pat n

namespace StatsIndexFactory

/-- The `PrefixSuffixMatcher` proto: a prefix and a suffix string. -/
structure PrefixSuffixMatcherConfig where
  pre : String
  suf : String

/-- The `envoy.type.matcher.v3.StringMatcher` proto's `match_pattern`
oneof (the variants the factory handles, plus unset). -/
inductive StringMatcherCase where
  | exactS (s : String)
  | prefixS (s : String)
  | suffixS (s : String)
  | safeRegexS (pattern : String)
  | containsS (s : String)
  | notSetS
deriving DecidableEq, Repr

/-- The `StatsIndexConfig` proto's `matcher` oneof. -/
inductive MatcherCase where
  | prefixSuffixC (c : PrefixSuffixMatcherConfig)
  | stringMatcherC (c : StringMatcherCase)
  | notSetC

/-- The `StatsIndexConfig.MetricType` proto enum. -/
inductive MetricType where
  | GAUGE
  | COUNTER
  | METRIC_TYPE_UNSPECIFIED
deriving DecidableEq, Repr

/-- The `StatsIndexConfig` proto: index name, metric kind, matcher config. -/
structure StatsIndexConfig where
  name : String
  metric_type : MetricType
  matcher : MatcherCase

/-- `StatsIndexFactory::createPrefixSuffixMatcher`. -/
def createPrefixSuffixMatcher (c : PrefixSuffixMatcherConfig) :
    Except Failure CreatedMatcher :=
  .ok (.prefixSuffix c.pre c.suf)

/-- Construction of a `RegexIndexMatcher`: its constructor runs
`parseStdRegex`, which throws (recoverably) on an invalid pattern. -/
def mkRegexMatcher (pattern : String) : Except Failure CreatedMatcher :=
  match parseStdRegex pattern with
  | .ok _ => .ok (.regex pattern)
  | .error e => .error e

/-- `StatsIndexFactory::createStringMatcher`: `exact` becomes the anchored
regex `^…$` of the lowercased value, `prefix`/`suffix` become
`PrefixSuffixIndexMatcher`s, `safe_regex` a `RegexIndexMatcher`, `contains`
the wildcard-wrapped regex `.*….*` of the lowercased value, and an unset
`match_pattern` is a `PANIC`. -/
def createStringMatcher : StringMatcherCase → Except Failure CreatedMatcher
  | .exactS s => mkRegexMatcher ("^" ++ replaceAllToLower s ++ "$")
  | .prefixS s => .ok (.prefixSuffix s "")
  | .suffixS s => .ok (.prefixSuffix "" s)
  | .safeRegexS p => mkRegexMatcher p
  | .containsS s => mkRegexMatcher (".*" ++ replaceAllToLower s ++ ".*")
  | .notSetS => .error (.fatal "StringMatcher match_pattern not set")

/-- `StatsIndexFactory::createMatcher`: dispatch on the `matcher` oneof; an
unset discriminant is a `PANIC`. -/
def createMatcher (config : StatsIndexConfig) : Except Failure CreatedMatcher :=
  match config.matcher with
  | .prefixSuffixC c => createPrefixSuffixMatcher c
  | .stringMatcherC c => createStringMatcher c
  | .notSetC => .error (.fatal "StatsIndexConfig matcher not set")

/-- `StatsIndexFactory::createIndicesFromConfig`: for each declaration,
build the matcher, then register an index of the declared kind; an
unspecified metric kind is a `PANIC`. -/
def createIndicesFromConfig (store : IndexedStatsStore)
    (cfgs : List StatsIndexConfig) : Except Failure IndexedStatsStore :=
  cfgs.foldlM (fun st cfg => do
    let m ← createMatcher cfg
    match cfg.metric_type with
    | .GAUGE => st.registerGaugeIndex cfg.name m.matches
    | .COUNTER => st.registerCounterIndex cfg.name m.matches
    | .METRIC_TYPE_UNSPECIFIED =>
        .error (.fatal ("StatsIndexConfig '" ++ cfg.name ++
          "' has unspecified metric_type"))) store

/-- `StatsIndexFactory::createIndicesFromConfigWithExisting`: identical but
through the `WithExisting` registration path, backfilling from the base
store's current populations. -/
def createIndicesFromConfigWithExisting (store : IndexedStatsStore)
    (gauges counters : List Metric)
    (cfgs : List StatsIndexConfig) : Except Failure IndexedStatsStore :=
  cfgs.foldlM (fun st cfg => do
    let m ← createMatcher cfg
    match cfg.metric_type with
    | .GAUGE => st.registerGaugeIndexWithExisting gauges cfg.name m.matches
    | .COUNTER => st.registerCounterIndexWithExisting counters cfg.name m.matches
    | .METRIC_TYPE_UNSPECIFIED =>
        .error (.fatal ("StatsIndexConfig '" ++ cfg.name ++
          "' has unspecified metric_type"))) store

end StatsIndexFactory

/-- The mutating operations an individual index undergoes: direct
`tryAdd`/`tryAddWithStatName`/`remove`/`clear` calls.  The registry's
creation fan-out (`onGaugeCreated`/`onCounterCreated`) performs one `tryAdd`
per index, the deletion fan-out one `remove`, and the `WithExisting`
backfill a sequence of `tryAdd`s, so every registry-driven mutation of an
index is a sequence of these operations. -/
inductive IndexOp where
  | tryAddOp (m : Metric)
  | tryAddStatNameOp (m : Metric)
  | removeOp (m : Metric)
  | clearOp
deriving DecidableEq, Repr

/-- Applies one operation to an index (`st` is the symbol table used by the
encoded-name path). -/
def applyOp (st : SymbolTable) (idx : StatsIndex) : IndexOp → StatsIndex
  | .tryAddOp m => (idx.tryAdd m).2
  | .tryAddStatNameOp m => (StatsIndex.tryAddWithStatName st idx m).2
  | .removeOp m => idx.remove m
  | .clearOp => idx.clear

/-- Applies a sequence of operations left to right. -/
def applyOps (st : SymbolTable) (idx : StatsIndex) (ops : List IndexOp) : StatsIndex :=
  ops.foldl (applyOp st) idx

/-- The membership invariant of an index: every member was accepted by the
index's matcher (metric names are immutable, so acceptance at insertion
time and acceptance now coincide), and the member list has set semantics
(no metric reference appears twice). -/
def IndexInv (idx : StatsIndex) : Prop :=
  (∀ m ∈ idx.metrics_set, idx.matcher m.name = true) ∧ idx.metrics_set.Nodup

/-! Helper lemmas about the member-set primitives. -/

theorem mem_insertMetric {s : List Metric} {m x : Metric} :
    x ∈ StatsIndex.insertMetric s m ↔ x = m ∨ x ∈ s := by
  unfold StatsIndex.insertMetric
  split
  · next h =>
      constructor
      · exact Or.inr
      · rintro (rfl | hx)
        · exact h
        · exact hx
  · next h => exact List.mem_cons

theorem nodup_insertMetric {s : List Metric} {m : Metric} (hs : s.Nodup) :
    (StatsIndex.insertMetric s m).Nodup := by
  unfold StatsIndex.insertMetric
  split
  · exact hs
  · next h => exact List.nodup_cons.mpr ⟨h, hs⟩

theorem mem_eraseMetric {s : List Metric} {m x : Metric} :
    x ∈ StatsIndex.eraseMetric s m ↔ x ∈ s ∧ x ≠ m := by
  unfold StatsIndex.eraseMetric
  simp [List.mem_filter]

theorem nodup_eraseMetric {s : List Metric} {m : Metric} (hs : s.Nodup) :
    (StatsIndex.eraseMetric s m).Nodup :=
  hs.filter _

/-- `psMatches` as one boolean conjunction of the two checks. -/
theorem psMatches_eq_and (p s n : String) :
    psMatches p s n =
      ((p == "" || p.data.isPrefixOf n.data) && (s == "" || s.data.isSuffixOf n.data)) := by
  unfold psMatches
  cases hp : p == "" <;> cases h1 : p.data.isPrefixOf n.data <;>
    cases hs : s == "" <;> cases h2 : s.data.isSuffixOf n.data <;>
      simp [bne, hp, h1, hs, h2]

/-- C3: the prefix/suffix matcher built from `(p, s)` matches `n` iff
(`p` is empty or `n` starts with `p`) and (`s` is empty or `n` ends with
`s`); the matcher built from two empty strings matches every string
including the empty one, and with `p="abc"`, `s="bcd"` it matches `"abcd"`
and `"abcXbcd"` but neither `"abc"` nor `"bcd"`. -/
theorem prefixSuffix_matches_iff (p s n : String) :
    (psMatches p s n = true ↔
      ((p = "" ∨ p.data <+: n.data) ∧ (s = "" ∨ s.data <:+ n.data))) ∧
    psMatches "" "" "" = true ∧
    psMatches "abc" "bcd" "abcd" = true ∧
    psMatches "abc" "bcd" "abcXbcd" = true ∧
    psMatches "abc" "bcd" "abc" = false ∧
    psMatches "abc" "bcd" "bcd" = false := by
  refine ⟨?_, by decide, by decide, by decide, by decide, by decide⟩
  rw [psMatches_eq_and]
  simp [Bool.and_eq_true, Bool.or_eq_true, beq_iff_eq]

/-- C2: `tryAdd` returns exactly the matcher's verdict; a non-matching
metric leaves the index unchanged; adding the same matching metric twice
starting from an empty index leaves the member set at exactly `[m]`
(size 1), and the second call still returns `true`. -/
theorem tryAdd_matcher_semantics (idx : StatsIndex) (m : Metric) (nm : String)
    (f : String → Bool) (hm : f m.name = true) :
    (idx.tryAdd m).1 = idx.matcher m.name ∧
    (idx.matcher m.name = false → (idx.tryAdd m).2 = idx) ∧
    (StatsIndex.tryAdd (StatsIndex.tryAdd ⟨nm, f, []⟩ m).2 m).1 = true ∧
    (StatsIndex.tryAdd (StatsIndex.tryAdd ⟨nm, f, []⟩ m).2 m).2.metrics_set = [m] ∧
    (StatsIndex.tryAdd (StatsIndex.tryAdd ⟨nm, f, []⟩ m).2 m).2.size = 1 := by
  refine ⟨?_, ?_, ?_, ?_, ?_⟩
  · unfold StatsIndex.tryAdd
    cases h : idx.matcher m.name <;> simp [h]
  · intro h
    unfold StatsIndex.tryAdd
    simp [h]
  · simp [StatsIndex.tryAdd, StatsIndex.insertMetric, hm]
  · simp [StatsIndex.tryAdd, StatsIndex.insertMetric, hm]
  · simp [StatsIndex.tryAdd, StatsIndex.insertMetric, StatsIndex.size, hm]

/-- Concrete instantiation of `tryAdd_matcher_semantics`. -/
theorem tryAdd_matcher_semantics_witness :
    ((StatsIndex.mk "i" (fun x => x == "a") []).tryAdd ⟨0, "a", 0⟩).1 =
      (StatsIndex.mk "i" (fun x => x == "a") []).matcher "a" ∧
    ((StatsIndex.mk "i" (fun x => x == "a") []).matcher "a" = false →
      ((StatsIndex.mk "i" (fun x => x == "a") []).tryAdd ⟨0, "a", 0⟩).2 =
        StatsIndex.mk "i" (fun x => x == "a") []) ∧
    (StatsIndex.tryAdd
      (StatsIndex.tryAdd ⟨"i", fun x => x == "a", []⟩ ⟨0, "a", 0⟩).2 ⟨0, "a", 0⟩).1 = true ∧
    (StatsIndex.tryAdd
      (StatsIndex.tryAdd ⟨"i", fun x => x == "a", []⟩ ⟨0, "a", 0⟩).2
        ⟨0, "a", 0⟩).2.metrics_set = [⟨0, "a", 0⟩] ∧
    (StatsIndex.tryAdd
      (StatsIndex.tryAdd ⟨"i", fun x => x == "a", []⟩ ⟨0, "a", 0⟩).2 ⟨0, "a", 0⟩).2.size = 1 :=
  tryAdd_matcher_semantics ⟨"i", fun x => x == "a", []⟩ ⟨0, "a", 0⟩ "i"
    (fun x => x == "a") (by decide)

/-! Lemmas about the aggregation folds. -/

theorem foldl_mod_add (v : Metric → Nat) :
    ∀ (l : List Metric) (a : Nat),
      l.foldl (fun total m => (total + v m) % U64) (a % U64) = (a + (l.map v).sum) % U64 := by
  intro l
  induction l with
  | nil => intro a; simp
  | cons x xs ih =>
      intro a
      simp only [List.foldl_cons, List.map_cons, List.sum_cons]
      have h1 : (a % U64 + v x) % U64 = (a + v x) % U64 := Nat.mod_add_mod a U64 (v x)
      rw [h1, ih (a + v x), Nat.add_assoc]

theorem sum_eq_mod (idx : StatsIndex) (v : Metric → Nat) :
    AggregatedStatsIndex.sum idx v = (idx.metrics_set.map v).sum % U64 := by
  have h := foldl_mod_add v idx.metrics_set 0
  simpa [AggregatedStatsIndex.sum] using h

theorem statsFold_fst (v : Metric → Nat) :
    ∀ (l : List Metric) (t : Nat × Nat × Nat × Nat),
      (l.foldl (AggregatedStatsIndex.statsStep v) t).1 =
        l.foldl (fun total m => (total + v m) % U64) t.1 := by
  intro l
  induction l with
  | nil => intro t; rfl
  | cons x xs ih => intro t; simpa [AggregatedStatsIndex.statsStep] using ih _

theorem statsFold_cnt (v : Metric → Nat) :
    ∀ (l : List Metric) (t : Nat × Nat × Nat × Nat),
      (l.foldl (AggregatedStatsIndex.statsStep v) t).2.2.2 = t.2.2.2 + l.length := by
  intro l
  induction l with
  | nil => intro t; simp
  | cons x xs ih =>
      intro t
      have := ih ((AggregatedStatsIndex.statsStep v) t x)
      simp only [List.foldl_cons, List.length_cons] at this ⊢
      rw [this]
      simp [AggregatedStatsIndex.statsStep]
      omega

/-- C4: on an empty member set, `sum() = 0`, `count() = 0`,
`average() = 0.0`, `max() = 0`, `min() = UINT64_MAX`, while
`computeStats()` reports sum 0, count 0, max 0 and min 0 — the sentinel is
corrected to 0 only in the combined form. -/
theorem aggregated_empty_sentinels (idx : StatsIndex) (v : Metric → Nat)
    (h : idx.metrics_set = []) :
    AggregatedStatsIndex.sum idx v = 0 ∧
    AggregatedStatsIndex.count idx v = 0 ∧
    AggregatedStatsIndex.average idx v = 0 ∧
    AggregatedStatsIndex.maxV idx v = 0 ∧
    AggregatedStatsIndex.minV idx v = U64MAX ∧
    AggregatedStatsIndex.computeStats idx v = (0, 0, 0, 0) := by
  refine ⟨?_, ?_, ?_, ?_, ?_, ?_⟩ <;>
    simp [AggregatedStatsIndex.sum, AggregatedStatsIndex.count,
      AggregatedStatsIndex.average, AggregatedStatsIndex.maxV,
      AggregatedStatsIndex.minV, AggregatedStatsIndex.computeStats,
      AggregatedStatsIndex.fixEmptyMin, StatsIndex.size, h]

/-- Concrete instantiation of `aggregated_empty_sentinels`. -/
theorem aggregated_empty_sentinels_witness :
    AggregatedStatsIndex.sum ⟨"e", fun _ => true, []⟩ (fun _ => 7) = 0 ∧
    AggregatedStatsIndex.count ⟨"e", fun _ => true, []⟩ (fun _ => 7) = 0 ∧
    AggregatedStatsIndex.average ⟨"e", fun _ => true, []⟩ (fun _ => 7) = 0 ∧
    AggregatedStatsIndex.maxV ⟨"e", fun _ => true, []⟩ (fun _ => 7) = 0 ∧
    AggregatedStatsIndex.minV ⟨"e", fun _ => true, []⟩ (fun _ => 7) = U64MAX ∧
    AggregatedStatsIndex.computeStats ⟨"e", fun _ => true, []⟩ (fun _ => 7) = (0, 0, 0, 0) :=
  aggregated_empty_sentinels ⟨"e", fun _ => true, []⟩ (fun _ => 7) rfl

/-- C10: the accumulating reductions perform wrapping `uint64_t`
arithmetic: `sum()`, `computeStats()`'s sum component, and `aggregate`
instantiated at the `uint64_t` additive fold all return the true
mathematical sum of the current values reduced modulo `2^64` — so a sum
that fits in 64 bits is returned exactly, and one that does not silently
wraps around. -/
theorem sum_wraps_uint64 (idx : StatsIndex) (v : Metric → Nat)
    (_hv : ∀ m : Metric, v m < U64) :
    AggregatedStatsIndex.sum idx v = (idx.metrics_set.map v).sum % U64 ∧
    ((idx.metrics_set.map v).sum < U64 →
      AggregatedStatsIndex.sum idx v = (idx.metrics_set.map v).sum) ∧
    (AggregatedStatsIndex.computeStats idx v).1 = (idx.metrics_set.map v).sum % U64 ∧
    AggregatedStatsIndex.aggregate idx v 0 (fun acc x => (acc + x) % U64) =
      (idx.metrics_set.map v).sum % U64 := by
  have hsum := sum_eq_mod idx v
  refine ⟨hsum, ?_, ?_, ?_⟩
  · intro hlt
    rw [hsum, Nat.mod_eq_of_lt hlt]
  · have h1 := statsFold_fst v idx.metrics_set (0, U64MAX, 0, 0)
    have h2 := foldl_mod_add v idx.metrics_set 0
    have hfix : ∀ r : Nat × Nat × Nat × Nat, (AggregatedStatsIndex.fixEmptyMin r).1 = r.1 := by
      intro r
      unfold AggregatedStatsIndex.fixEmptyMin
      split <;> rfl
    unfold AggregatedStatsIndex.computeStats
    rw [hfix, h1]
    simpa using h2
  · have h2 := foldl_mod_add v idx.metrics_set 0
    simpa [AggregatedStatsIndex.aggregate] using h2

/-- Concrete instantiation of `sum_wraps_uint64`: two metrics valued
`2^63` each make the true sum `2^64`, and `sum()` wraps to `0`. -/
theorem sum_wraps_uint64_witness :
    AggregatedStatsIndex.sum ⟨"w", fun _ => true, [⟨0, "a", 0⟩, ⟨1, "b", 1⟩]⟩
        (fun _ => 2 ^ 63) =
      (([⟨0, "a", 0⟩, ⟨1, "b", 1⟩] : List Metric).map (fun _ => 2 ^ 63)).sum % U64 ∧
    ((([⟨0, "a", 0⟩, ⟨1, "b", 1⟩] : List Metric).map (fun _ => 2 ^ 63)).sum < U64 →
      AggregatedStatsIndex.sum ⟨"w", fun _ => true, [⟨0, "a", 0⟩, ⟨1, "b", 1⟩]⟩
          (fun _ => 2 ^ 63) =
        (([⟨0, "a", 0⟩, ⟨1, "b", 1⟩] : List Metric).map (fun _ => 2 ^ 63)).sum) ∧
    (AggregatedStatsIndex.computeStats ⟨"w", fun _ => true, [⟨0, "a", 0⟩, ⟨1, "b", 1⟩]⟩
        (fun _ => 2 ^ 63)).1 =
      (([⟨0, "a", 0⟩, ⟨1, "b", 1⟩] : List Metric).map (fun _ => 2 ^ 63)).sum % U64 ∧
    AggregatedStatsIndex.aggregate ⟨"w", fun _ => true, [⟨0, "a", 0⟩, ⟨1, "b", 1⟩]⟩
        (fun _ => 2 ^ 63) 0 (fun acc x => (acc + x) % U64) =
      (([⟨0, "a", 0⟩, ⟨1, "b", 1⟩] : List Metric).map (fun _ => 2 ^ 63)).sum % U64 :=
  sum_wraps_uint64 ⟨"w", fun _ => true, [⟨0, "a", 0⟩, ⟨1, "b", 1⟩]⟩ (fun _ => 2 ^ 63)
    (fun _ => by norm_num [U64])

/-! Helper lemmas about `tryAdd` and the backfill loop. -/

theorem tryAdd_snd_name (idx : StatsIndex) (m : Metric) :
    (idx.tryAdd m).2.name = idx.name := by
  unfold StatsIndex.tryAdd
  split <;> rfl

theorem tryAdd_snd_matcher (idx : StatsIndex) (m : Metric) :
    (idx.tryAdd m).2.matcher = idx.matcher := by
  unfold StatsIndex.tryAdd
  split <;> rfl

theorem tryAdd_snd_mem (idx : StatsIndex) (m x : Metric) :
    x ∈ (idx.tryAdd m).2.metrics_set ↔
      ((x = m ∧ idx.matcher m.name = true) ∨ x ∈ idx.metrics_set) := by
  unfold StatsIndex.tryAdd
  cases h : idx.matcher m.name <;> simp [h, mem_insertMetric]

theorem tryAdd_snd_nodup (idx : StatsIndex) (m : Metric)
    (hs : idx.metrics_set.Nodup) : (idx.tryAdd m).2.metrics_set.Nodup := by
  unfold StatsIndex.tryAdd
  cases h : idx.matcher m.name <;> simp [h, hs, nodup_insertMetric]

theorem backfill_name (l : List Metric) :
    ∀ idx : StatsIndex, (IndexedStatsStore.backfill idx l).name = idx.name := by
  induction l with
  | nil => intro idx; rfl
  | cons m ms ih =>
      intro idx
      have := ih (idx.tryAdd m).2
      simpa [IndexedStatsStore.backfill, tryAdd_snd_name] using this

theorem backfill_matcher (l : List Metric) :
    ∀ idx : StatsIndex, (IndexedStatsStore.backfill idx l).matcher = idx.matcher := by
  induction l with
  | nil => intro idx; rfl
  | cons m ms ih =>
      intro idx
      have := ih (idx.tryAdd m).2
      simpa [IndexedStatsStore.backfill, tryAdd_snd_matcher] using this

theorem backfill_mem (l : List Metric) :
    ∀ (idx : StatsIndex) (x : Metric),
      x ∈ (IndexedStatsStore.backfill idx l).metrics_set ↔
        ((x ∈ l ∧ idx.matcher x.name = true) ∨ x ∈ idx.metrics_set) := by
  induction l with
  | nil =>
      intro idx x
      simp [IndexedStatsStore.backfill]
  | cons m ms ih =>
      intro idx x
      have hrec := ih (idx.tryAdd m).2 x
      rw [tryAdd_snd_matcher] at hrec
      simp only [IndexedStatsStore.backfill, List.foldl_cons] at *
      rw [hrec, tryAdd_snd_mem]
      by_cases hx : x = m
      · subst hx
        by_cases hm : idx.matcher x.name = true <;> simp [hm]
      · simp only [List.mem_cons, hx, false_or]
        tauto

theorem backfill_nodup (l : List Metric) :
    ∀ idx : StatsIndex, idx.metrics_set.Nodup →
      (IndexedStatsStore.backfill idx l).metrics_set.Nodup := by
  induction l with
  | nil => intro idx h; exact h
  | cons m ms ih =>
      intro idx h
      have := ih (idx.tryAdd m).2 (tryAdd_snd_nodup idx m h)
      simpa [IndexedStatsStore.backfill] using this

/-- C5: `onGaugeCreated` calls `tryAdd` on every gauge index, so a freshly
created gauge ends up a member of exactly the gauge indices whose matcher
accepts its name; rejecting gauge indices are unchanged, and the counter
partition is untouched. -/
theorem onGaugeCreated_fanout (st : IndexedStatsStore) (g : Metric)
    (hfresh : ∀ p ∈ st.gauge_indices, g ∉ p.2.metrics_set) :
    (st.onGaugeCreated g).counter_indices = st.counter_indices ∧
    (st.onGaugeCreated g).gauge_indices.length = st.gauge_indices.length ∧
    (∀ q ∈ (st.onGaugeCreated g).gauge_indices, ∃ p ∈ st.gauge_indices,
       q.1 = p.1 ∧ q.2.name = p.2.name ∧ q.2.matcher = p.2.matcher ∧
       (g ∈ q.2.metrics_set ↔ p.2.matcher g.name = true) ∧
       (p.2.matcher g.name = false → q.2 = p.2)) := by
  refine ⟨rfl, by simp [IndexedStatsStore.onGaugeCreated], ?_⟩
  intro q hq
  simp only [IndexedStatsStore.onGaugeCreated, List.mem_map] at hq
  obtain ⟨p, hp, rfl⟩ := hq
  refine ⟨p, hp, rfl, tryAdd_snd_name p.2 g, tryAdd_snd_matcher p.2 g, ?_, ?_⟩
  · rw [tryAdd_snd_mem]
    cases h : p.2.matcher g.name
    · simp [h]
      exact hfresh p hp
    · simp [h]
  · intro h
    unfold StatsIndex.tryAdd
    simp [h]

/-- Concrete instantiation of `onGaugeCreated_fanout`: one matching and one
non-matching gauge index. -/
theorem onGaugeCreated_fanout_witness :
    (IndexedStatsStore.onGaugeCreated
        ⟨[("i", ⟨"i", fun n => n == "a", []⟩)], []⟩ ⟨0, "a", 0⟩).counter_indices =
      ([] : List (String × StatsIndex)) ∧
    (IndexedStatsStore.onGaugeCreated
        ⟨[("i", ⟨"i", fun n => n == "a", []⟩)], []⟩ ⟨0, "a", 0⟩).gauge_indices.length =
      [("i", StatsIndex.mk "i" (fun n => n == "a") [])].length ∧
    (∀ q ∈ (IndexedStatsStore.onGaugeCreated
        ⟨[("i", ⟨"i", fun n => n == "a", []⟩)], []⟩ ⟨0, "a", 0⟩).gauge_indices,
      ∃ p ∈ [("i", StatsIndex.mk "i" (fun n => n == "a") [])],
        q.1 = p.1 ∧ q.2.name = p.2.name ∧ q.2.matcher = p.2.matcher ∧
        ((⟨0, "a", 0⟩ : Metric) ∈ q.2.metrics_set ↔ p.2.matcher "a" = true) ∧
        (p.2.matcher "a" = false → q.2 = p.2)) :=
  onGaugeCreated_fanout ⟨[("i", ⟨"i", fun n => n == "a", []⟩)], []⟩ ⟨0, "a", 0⟩
    (by intro p hp; simp at hp; simp [hp])

/-- C6: registering an index under a name already bound in the same
partition is a `PANIC` whose message identifies the offending name, while
the same name can be registered in both partitions: from a state binding
the name in neither partition, registering a gauge index and then a counter
index under that one name both succeed and both indices are retrievable. -/
theorem register_duplicate_name_fatal (st : IndexedStatsStore) (name : String)
    (f g : String → Bool) :
    (∀ idx, st.gauge_indices.lookup name = some idx →
       st.registerGaugeIndex name f =
         .error (.fatal ("Gauge index '" ++ name ++ "' already exists"))) ∧
    (∀ idx, st.counter_indices.lookup name = some idx →
       st.registerCounterIndex name f =
         .error (.fatal ("Counter index '" ++ name ++ "' already exists"))) ∧
    (st.gauge_indices.lookup name = none → st.counter_indices.lookup name = none →
       ∃ st2 st3, st.registerGaugeIndex name f = .ok st2 ∧
         st2.registerCounterIndex name g = .ok st3 ∧
         st3.getGaugeIndex name = some ⟨name, f, []⟩ ∧
         st3.getCounterIndex name = some ⟨name, g, []⟩) := by
  refine ⟨?_, ?_, ?_⟩
  · intro idx h
    unfold IndexedStatsStore.registerGaugeIndex
    rw [h]
  · intro idx h
    unfold IndexedStatsStore.registerCounterIndex
    rw [h]
  · intro hg hc
    have e1 : st.registerGaugeIndex name f =
        .ok { st with gauge_indices := (name, ⟨name, f, []⟩) :: st.gauge_indices } := by
      unfold IndexedStatsStore.registerGaugeIndex
      rw [hg]
    have e2 : IndexedStatsStore.registerCounterIndex
        { st with gauge_indices := (name, ⟨name, f, []⟩) :: st.gauge_indices } name g =
        .ok ⟨(name, ⟨name, f, []⟩) :: st.gauge_indices,
             (name, ⟨name, g, []⟩) :: st.counter_indices⟩ := by
      unfold IndexedStatsStore.registerCounterIndex
      simp only []
      rw [hc]
    refine ⟨_, _, e1, e2, ?_, ?_⟩
    · simp [IndexedStatsStore.getGaugeIndex, List.lookup]
    · simp [IndexedStatsStore.getCounterIndex, List.lookup]

/-- Concrete instantiation of `register_duplicate_name_fatal` on the empty
registry. -/
theorem register_duplicate_name_fatal_witness :
    (∀ idx, (IndexedStatsStore.mk [] []).gauge_indices.lookup "x" = some idx →
       (IndexedStatsStore.mk [] []).registerGaugeIndex "x" (fun _ => true) =
         .error (.fatal ("Gauge index '" ++ "x" ++ "' already exists"))) ∧
    (∀ idx, (IndexedStatsStore.mk [] []).counter_indices.lookup "x" = some idx →
       (IndexedStatsStore.mk [] []).registerCounterIndex "x" (fun _ => true) =
         .error (.fatal ("Counter index '" ++ "x" ++ "' already exists"))) ∧
    ((IndexedStatsStore.mk [] []).gauge_indices.lookup "x" = none →
     (IndexedStatsStore.mk [] []).counter_indices.lookup "x" = none →
       ∃ st2 st3, (IndexedStatsStore.mk [] []).registerGaugeIndex "x" (fun _ => true) = .ok st2 ∧
         st2.registerCounterIndex "x" (fun _ => false) = .ok st3 ∧
         st3.getGaugeIndex "x" = some ⟨"x", fun _ => true, []⟩ ∧
         st3.getCounterIndex "x" = some ⟨"x", fun _ => false, []⟩) :=
  register_duplicate_name_fatal ⟨[], []⟩ "x" (fun _ => true) (fun _ => false)

/-- C9: the `WithExisting` registration paths create the index and backfill
it by `tryAdd` over the existing metrics of the matching kind: the new
index's member set is exactly the matching pre-existing metrics of that
kind (no duplicates, no non-matching metric, nothing from the other
partition's population, whose mapping is untouched). -/
theorem registerWithExisting_backfills_exactly (st : IndexedStatsStore)
    (gauges counters : List Metric) (name : String) (f g : String → Bool)
    (hg : st.gauge_indices.lookup name = none)
    (hc : st.counter_indices.lookup name = none) :
    (∃ st2, st.registerGaugeIndexWithExisting gauges name f = .ok st2 ∧
       st2.counter_indices = st.counter_indices ∧
       ∃ idx, st2.getGaugeIndex name = some idx ∧ idx.name = name ∧
         idx.matcher = f ∧ idx.metrics_set.Nodup ∧
         (∀ x, x ∈ idx.metrics_set ↔ x ∈ gauges ∧ f x.name = true)) ∧
    (∃ st2, st.registerCounterIndexWithExisting counters name g = .ok st2 ∧
       st2.gauge_indices = st.gauge_indices ∧
       ∃ idx, st2.getCounterIndex name = some idx ∧ idx.name = name ∧
         idx.matcher = g ∧ idx.metrics_set.Nodup ∧
         (∀ x, x ∈ idx.metrics_set ↔ x ∈ counters ∧ g x.name = true)) := by
  constructor
  · have e1 : st.registerGaugeIndexWithExisting gauges name f =
        .ok { st with gauge_indices :=
                (name, IndexedStatsStore.backfill ⟨name, f, []⟩ gauges) :: st.gauge_indices } := by
      unfold IndexedStatsStore.registerGaugeIndexWithExisting
      rw [hg]
    refine ⟨_, e1, rfl, IndexedStatsStore.backfill ⟨name, f, []⟩ gauges, ?_,
      backfill_name gauges _, backfill_matcher gauges _,
      backfill_nodup gauges _ List.nodup_nil, ?_⟩
    · simp [IndexedStatsStore.getGaugeIndex, List.lookup]
    · intro x
      have := backfill_mem gauges ⟨name, f, []⟩ x
      simpa using this
  · have e1 : st.registerCounterIndexWithExisting counters name g =
        .ok { st with counter_indices :=
                (name, IndexedStatsStore.backfill ⟨name, g, []⟩ counters) :: st.counter_indices } := by
      unfold IndexedStatsStore.registerCounterIndexWithExisting
      rw [hc]
    refine ⟨_, e1, rfl, IndexedStatsStore.backfill ⟨name, g, []⟩ counters, ?_,
      backfill_name counters _, backfill_matcher counters _,
      backfill_nodup counters _ List.nodup_nil, ?_⟩
    · simp [IndexedStatsStore.getCounterIndex, List.lookup]
    · intro x
      have := backfill_mem counters ⟨name, g, []⟩ x
      simpa using this

/-- Concrete instantiation of `registerWithExisting_backfills_exactly`:
a matching and a non-matching pre-existing gauge. -/
theorem registerWithExisting_backfills_exactly_witness :
    (∃ st2, (IndexedStatsStore.mk [] []).registerGaugeIndexWithExisting
        [⟨0, "a", 0⟩, ⟨1, "b", 1⟩] "x" (fun n => n == "a") = .ok st2 ∧
       st2.counter_indices = (IndexedStatsStore.mk [] []).counter_indices ∧
       ∃ idx, st2.getGaugeIndex "x" = some idx ∧ idx.name = "x" ∧
         idx.matcher = (fun n => n == "a") ∧ idx.metrics_set.Nodup ∧
         (∀ x, x ∈ idx.metrics_set ↔
            x ∈ [(⟨0, "a", 0⟩ : Metric), ⟨1, "b", 1⟩] ∧ (x.name == "a") = true)) ∧
    (∃ st2, (IndexedStatsStore.mk [] []).registerCounterIndexWithExisting
        [⟨2, "c", 2⟩] "x" (fun _ => false) = .ok st2 ∧
       st2.gauge_indices = (IndexedStatsStore.mk [] []).gauge_indices ∧
       ∃ idx, st2.getCounterIndex "x" = some idx ∧ idx.name = "x" ∧
         idx.matcher = (fun _ => false) ∧ idx.metrics_set.Nodup ∧
         (∀ x, x ∈ idx.metrics_set ↔ x ∈ [(⟨2, "c", 2⟩ : Metric)] ∧ false = true)) :=
  registerWithExisting_backfills_exactly ⟨[], []⟩ [⟨0, "a", 0⟩, ⟨1, "b", 1⟩]
    [⟨2, "c", 2⟩] "x" (fun n => n == "a") (fun _ => false) rfl rfl

/-! Helper lemmas for the reachability invariant (C1). -/

theorem tryAddSN_snd_matcher (st : SymbolTable) (idx : StatsIndex) (m : Metric) :
    (StatsIndex.tryAddWithStatName st idx m).2.matcher = idx.matcher := by
  unfold StatsIndex.tryAddWithStatName
  split <;> rfl

theorem tryAddSN_snd_mem (st : SymbolTable) (idx : StatsIndex) (m x : Metric) :
    x ∈ (StatsIndex.tryAddWithStatName st idx m).2.metrics_set ↔
      ((x = m ∧ idx.matcher (st m.statName) = true) ∨ x ∈ idx.metrics_set) := by
  unfold StatsIndex.tryAddWithStatName
  cases h : idx.matcher (st m.statName) <;> simp [h, mem_insertMetric]

theorem tryAddSN_snd_nodup (st : SymbolTable) (idx : StatsIndex) (m : Metric)
    (hs : idx.metrics_set.Nodup) :
    (StatsIndex.tryAddWithStatName st idx m).2.metrics_set.Nodup := by
  unfold StatsIndex.tryAddWithStatName
  cases h : idx.matcher (st m.statName) <;> simp [h, hs, nodup_insertMetric]

theorem applyOp_matcher (st : SymbolTable) (idx : StatsIndex) (op : IndexOp) :
    (applyOp st idx op).matcher = idx.matcher := by
  cases op with
  | tryAddOp m => exact tryAdd_snd_matcher idx m
  | tryAddStatNameOp m => exact tryAddSN_snd_matcher st idx m
  | removeOp m => rfl
  | clearOp => rfl

theorem applyOp_inv (st : SymbolTable) (idx : StatsIndex) (op : IndexOp)
    (hinv : IndexInv idx)
    (hop : ∀ m : Metric, op = .tryAddStatNameOp m → st m.statName = m.name) :
    IndexInv (applyOp st idx op) := by
  obtain ⟨hmem, hnd⟩ := hinv
  cases op with
  | tryAddOp m =>
      constructor
      · intro x hx
        rw [show (applyOp st idx (.tryAddOp m)) = (idx.tryAdd m).2 from rfl] at hx ⊢
        rw [tryAdd_snd_matcher]
        rcases (tryAdd_snd_mem idx m x).1 hx with ⟨rfl, hm⟩ | hx2
        · exact hm
        · exact hmem x hx2
      · exact tryAdd_snd_nodup idx m hnd
  | tryAddStatNameOp m =>
      have hdec := hop m rfl
      constructor
      · intro x hx
        rw [show (applyOp st idx (.tryAddStatNameOp m)) =
              (StatsIndex.tryAddWithStatName st idx m).2 from rfl] at hx ⊢
        rw [tryAddSN_snd_matcher]
        rcases (tryAddSN_snd_mem st idx m x).1 hx with ⟨rfl, hm⟩ | hx2
        · rw [hdec] at hm
          exact hm
        · exact hmem x hx2
      · exact tryAddSN_snd_nodup st idx m hnd
  | removeOp m =>
      constructor
      · intro x hx
        exact hmem x ((mem_eraseMetric).1 hx).1
      · exact nodup_eraseMetric hnd
  | clearOp =>
      exact ⟨fun x hx => absurd hx (List.not_mem_nil x), List.nodup_nil⟩

theorem applyOps_matcher (st : SymbolTable) (ops : List IndexOp) :
    ∀ idx : StatsIndex, (applyOps st idx ops).matcher = idx.matcher := by
  induction ops with
  | nil => intro idx; rfl
  | cons op rest ih =>
      intro idx
      have := ih (applyOp st idx op)
      simpa [applyOps, applyOp_matcher] using this

theorem applyOps_inv (st : SymbolTable) (ops : List IndexOp) :
    ∀ idx : StatsIndex, IndexInv idx →
      (∀ m : Metric, IndexOp.tryAddStatNameOp m ∈ ops → st m.statName = m.name) →
      IndexInv (applyOps st idx ops) := by
  induction ops with
  | nil => intro idx h _; exact h
  | cons op rest ih =>
      intro idx h hops
      have h1 : IndexInv (applyOp st idx op) :=
        applyOp_inv st idx op h (fun m hm => hops m (by simp [hm]))
      have := ih (applyOp st idx op) h1 (fun m hm => hops m (List.mem_cons_of_mem _ hm))
      simpa [applyOps] using this

theorem backfill_eq_applyOps (st : SymbolTable) (l : List Metric) :
    ∀ idx : StatsIndex,
      IndexedStatsStore.backfill idx l = applyOps st idx (l.map IndexOp.tryAddOp) := by
  induction l with
  | nil => intro idx; rfl
  | cons m ms ih =>
      intro idx
      have := ih (idx.tryAdd m).2
      simpa [IndexedStatsStore.backfill, applyOps, applyOp] using this

/-- C1: from its creation (empty member set), under any sequence of
`tryAdd`, encoded-name `tryAdd`, `remove` and `clear` operations — the
operations the registry's creation fan-out and `WithExisting` backfill also
consist of — an index's member set contains only metrics accepted by its
(unchanged) matcher, with each metric reference appearing at most once; the
fan-out and backfill paths preserve this invariant for every registered
index.  The encoded-name path requires the symbol table to decode each
involved metric's `StatName` to its (immutable) name. -/
theorem index_membership_invariant (nm : String) (f : String → Bool)
    (st : SymbolTable) (ops : List IndexOp)
    (hst : ∀ m : Metric, IndexOp.tryAddStatNameOp m ∈ ops → st m.statName = m.name) :
    (∀ m ∈ (applyOps st ⟨nm, f, []⟩ ops).metrics_set, f m.name = true) ∧
    (applyOps st ⟨nm, f, []⟩ ops).metrics_set.Nodup ∧
    (applyOps st ⟨nm, f, []⟩ ops).matcher = f ∧
    (∀ (store : IndexedStatsStore) (g : Metric),
       (∀ p ∈ store.gauge_indices, IndexInv p.2) →
       ∀ q ∈ (store.onGaugeCreated g).gauge_indices, IndexInv q.2) ∧
    (∀ (idx : StatsIndex) (ms : List Metric), IndexInv idx →
       IndexInv (IndexedStatsStore.backfill idx ms)) := by
  have hstart : IndexInv ⟨nm, f, []⟩ :=
    ⟨fun x hx => absurd hx (List.not_mem_nil x), List.nodup_nil⟩
  have hmain := applyOps_inv st ops ⟨nm, f, []⟩ hstart hst
  have hmatch := applyOps_matcher st ops ⟨nm, f, []⟩
  refine ⟨?_, hmain.2, hmatch, ?_, ?_⟩
  · intro m hm
    have := hmain.1 m hm
    rwa [hmatch] at this
  · intro store g hall q hq
    simp only [IndexedStatsStore.onGaugeCreated, List.mem_map] at hq
    obtain ⟨p, hp, rfl⟩ := hq
    exact applyOp_inv st p.2 (.tryAddOp g) (hall p hp) (fun m hm => by cases hm)
  · intro idx ms hinv
    rw [backfill_eq_applyOps st ms idx]
    exact applyOps_inv st (ms.map IndexOp.tryAddOp) idx hinv
      (fun m hm => by simp [List.mem_map] at hm)

/-- Concrete instantiation of `index_membership_invariant` on a four-step
operation sequence. -/
theorem index_membership_invariant_witness :
    (∀ m ∈ (applyOps (fun _ => "a") ⟨"i", fun n => n == "a", []⟩
        [.tryAddOp ⟨0, "a", 0⟩, .tryAddStatNameOp ⟨1, "a", 0⟩,
         .removeOp ⟨0, "a", 0⟩, .clearOp]).metrics_set, (m.name == "a") = true) ∧
    (applyOps (fun _ => "a") ⟨"i", fun n => n == "a", []⟩
        [.tryAddOp ⟨0, "a", 0⟩, .tryAddStatNameOp ⟨1, "a", 0⟩,
         .removeOp ⟨0, "a", 0⟩, .clearOp]).metrics_set.Nodup ∧
    (applyOps (fun _ => "a") ⟨"i", fun n => n == "a", []⟩
        [.tryAddOp ⟨0, "a", 0⟩, .tryAddStatNameOp ⟨1, "a", 0⟩,
         .removeOp ⟨0, "a", 0⟩, .clearOp]).matcher = (fun n => n == "a") ∧
    (∀ (store : IndexedStatsStore) (g : Metric),
       (∀ p ∈ store.gauge_indices, IndexInv p.2) →
       ∀ q ∈ (store.onGaugeCreated g).gauge_indices, IndexInv q.2) ∧
    (∀ (idx : StatsIndex) (ms : List Metric), IndexInv idx →
       IndexInv (IndexedStatsStore.backfill idx ms)) :=
  index_membership_invariant "i" (fun n => n == "a") (fun _ => "a")
    [.tryAddOp ⟨0, "a", 0⟩, .tryAddStatNameOp ⟨1, "a", 0⟩,
     .removeOp ⟨0, "a", 0⟩, .clearOp]
    (by
      intro m hm
      simp at hm
      subst hm
      rfl)

/-- Whether a fallible operation failed with the recoverable
(`EnvoyException`) class. -/
def failedRecoverably {α : Type} : Except Failure α → Bool
  | .error (.recoverable _) => true
  | _ => false

/-- Whether a fallible operation failed with the fatal (`PANIC`) class. -/
def failedFatally {α : Type} : Except Failure α → Bool
  | .error (.fatal _) => true
  | _ => false

/-- C7 counterexample: on a config whose matcher discriminant is unset, and
on an index declaration whose metric kind is unspecified, factory creation
fails with the fatal `PANIC` class — not with the recoverable class that an
invalid regex pattern (shown last) gets. -/
theorem unset_discriminant_is_fatal_cx :
    failedRecoverably (StatsIndexFactory.createMatcher ⟨"x", .GAUGE, .notSetC⟩) = false ∧
    failedFatally (StatsIndexFactory.createMatcher ⟨"x", .GAUGE, .notSetC⟩) = true ∧
    failedRecoverably (StatsIndexFactory.createStringMatcher .notSetS) = false ∧
    failedFatally (StatsIndexFactory.createStringMatcher .notSetS) = true ∧
    failedRecoverably (StatsIndexFactory.createIndicesFromConfig ⟨[], []⟩
      [⟨"y", .METRIC_TYPE_UNSPECIFIED, .prefixSuffixC ⟨"", ""⟩⟩]) = false ∧
    failedFatally (StatsIndexFactory.createIndicesFromConfig ⟨[], []⟩
      [⟨"y", .METRIC_TYPE_UNSPECIFIED, .prefixSuffixC ⟨"", ""⟩⟩]) = true ∧
    failedRecoverably (StatsIndexFactory.createStringMatcher (.safeRegexS "(")) = true ∧
    failedFatally (StatsIndexFactory.createStringMatcher (.safeRegexS "(")) = false := by
  refine ⟨rfl, rfl, rfl, rfl, rfl, rfl, rfl, rfl⟩

/-- C7 amended: an unset matcher discriminant (in `StatsIndexConfig` or in
`StringMatcher`) and an unspecified metric kind fail synchronously at
factory time, but fatally — a `PANIC` identifying the problem, the same
hard-failure class as a duplicate index name — not as a recoverable
failure; only an invalid regex pattern is surfaced as a recoverable
construction failure the bootstrap or reload caller can reject. -/
theorem unset_discriminant_is_fatal (name : String) (ty : StatsIndexFactory.MetricType) :
    StatsIndexFactory.createMatcher ⟨name, ty, .notSetC⟩ =
      .error (.fatal "StatsIndexConfig matcher not set") ∧
    StatsIndexFactory.createStringMatcher .notSetS =
      .error (.fatal "StringMatcher match_pattern not set") ∧
    (∀ (store : IndexedStatsStore) (c : StatsIndexFactory.PrefixSuffixMatcherConfig),
       StatsIndexFactory.createIndicesFromConfig store
           [⟨name, .METRIC_TYPE_UNSPECIFIED, .prefixSuffixC c⟩] =
         .error (.fatal ("StatsIndexConfig '" ++ name ++ "' has unspecified metric_type"))) ∧
    (∀ p : String, (∃ ts, parseRegex p.data = some ts) ∨
       StatsIndexFactory.createStringMatcher (.safeRegexS p) =
         .error (.recoverable ("Invalid regex '" ++ p ++ "'"))) := by
  refine ⟨rfl, rfl, fun store c => rfl, ?_⟩
  intro p
  cases h : parseRegex p.data with
  | some ts => exact Or.inl ⟨ts, rfl⟩
  | none =>
      refine Or.inr ?_
      have hred : StatsIndexFactory.createStringMatcher (.safeRegexS p) =
          StatsIndexFactory.mkRegexMatcher p := rfl
      rw [hred]
      unfold StatsIndexFactory.mkRegexMatcher parseStdRegex
      rw [h]

/-! Relational semantics of the modelled regex fragment, and its
equivalence with the fuel-indexed matcher. -/

/-- `RMatches ts atStart s`: the token list `ts` matches the whole input
`s`, where `atStart` records whether the original input position 0 has not
yet been passed. -/
inductive RMatches : List RTok → Bool → List Char → Prop where
  | nilR (b : Bool) : RMatches [] b []
  | startR (ts : List RTok) (s : List Char) :
      RMatches ts true s → RMatches (.startAnchor :: ts) true s
  | endR (ts : List RTok) (b : Bool) :
      RMatches ts b [] → RMatches (.endAnchor :: ts) b []
  | atomR (a : RAtom) (c : Char) (ts : List RTok) (b : Bool) (s : List Char) :
      atomMatch a c = true → RMatches ts false s → RMatches (.atom a :: ts) b (c :: s)
  | starSkipR (a : RAtom) (ts : List RTok) (b : Bool) (s : List Char) :
      RMatches ts b s → RMatches (.star a :: ts) b s
  | starStepR (a : RAtom) (c : Char) (ts : List RTok) (b : Bool) (s : List Char) :
      atomMatch a c = true → RMatches (.star a :: ts) false s →
      RMatches (.star a :: ts) b (c :: s)

theorem rmatch_sound : ∀ (f : Nat) (ts : List RTok) (b : Bool) (s : List Char),
    rmatch f ts b s = true → RMatches ts b s := by
  intro f
  induction f with
  | zero =>
      intro ts b s h
      simp [rmatch] at h
  | succ f ih =>
      intro ts b s h
      match ts with
      | [] =>
          have : s = [] := by simpa [rmatch, List.isEmpty_iff] using h
          subst this
          exact .nilR b
      | .startAnchor :: ts =>
          rw [show rmatch (f + 1) (.startAnchor :: ts) b s =
                (b && rmatch f ts b s) from rfl] at h
          rw [Bool.and_eq_true] at h
          obtain ⟨hb, hr⟩ := h
          subst hb
          exact .startR ts s (ih ts true s hr)
      | .endAnchor :: ts =>
          rw [show rmatch (f + 1) (.endAnchor :: ts) b s =
                (s.isEmpty && rmatch f ts b s) from rfl] at h
          rw [Bool.and_eq_true] at h
          obtain ⟨hs, hr⟩ := h
          rw [List.isEmpty_iff] at hs
          subst hs
          exact .endR ts b (ih ts b [] hr)
      | .atom a :: ts =>
          match s with
          | [] => simp [rmatch] at h
          | c :: s =>
              rw [show rmatch (f + 1) (.atom a :: ts) b (c :: s) =
                    (atomMatch a c && rmatch f ts false s) from rfl] at h
              rw [Bool.and_eq_true] at h
              exact .atomR a c ts b s h.1 (ih ts false s h.2)
      | .star a :: ts =>
          match s with
          | [] =>
              have h2 : rmatch f ts b [] = true := by
                rw [show rmatch (f + 1) (.star a :: ts) b [] =
                      (rmatch f ts b [] || false) from rfl] at h
                simpa using h
              exact .starSkipR a ts b [] (ih ts b [] h2)
          | c :: s2 =>
              rw [show rmatch (f + 1) (.star a :: ts) b (c :: s2) =
                    (rmatch f ts b (c :: s2) ||
                      (atomMatch a c && rmatch f (.star a :: ts) false s2)) from rfl] at h
              rw [Bool.or_eq_true, Bool.and_eq_true] at h
              rcases h with h | ⟨ha, hr⟩
              · exact .starSkipR a ts b _ (ih ts b _ h)
              · exact .starStepR a c ts b s2 ha (ih (.star a :: ts) false s2 hr)

theorem rmatch_complete {ts : List RTok} {b : Bool} {s : List Char}
    (h : RMatches ts b s) :
    ∀ f : Nat, ts.length + s.length < f → rmatch f ts b s = true := by
  induction h with
  | nilR b =>
      intro f hf
      match f with
      | g + 1 => simp [rmatch]
  | startR ts s _ ih =>
      intro f hf
      match f with
      | g + 1 =>
          have hg : ts.length + s.length < g := by
            simp only [List.length_cons] at hf
            omega
          rw [show rmatch (g + 1) (.startAnchor :: ts) true s =
                (true && rmatch g ts true s) from rfl]
          rw [ih g hg]
          rfl
  | endR ts b _ ih =>
      intro f hf
      match f with
      | g + 1 =>
          have hg : ts.length + ([] : List Char).length < g := by
            simp only [List.length_cons] at hf
            simp
            omega
          rw [show rmatch (g + 1) (.endAnchor :: ts) b [] =
                (([] : List Char).isEmpty && rmatch g ts b []) from rfl]
          rw [ih g hg]
          rfl
  | atomR a c ts b s ha _ ih =>
      intro f hf
      match f with
      | g + 1 =>
          have hg : ts.length + s.length < g := by
            simp only [List.length_cons] at hf
            omega
          rw [show rmatch (g + 1) (.atom a :: ts) b (c :: s) =
                (atomMatch a c && rmatch g ts false s) from rfl]
          rw [ha, ih g hg]
          rfl
  | starSkipR a ts b s _ ih =>
      intro f hf
      match f with
      | g + 1 =>
          have hg : ts.length + s.length < g := by
            simp only [List.length_cons] at hf
            omega
          cases s with
          | nil =>
              rw [show rmatch (g + 1) (.star a :: ts) b [] =
                    (rmatch g ts b [] || false) from rfl]
              rw [ih g hg]
              rfl
          | cons c s2 =>
              rw [show rmatch (g + 1) (.star a :: ts) b (c :: s2) =
                    (rmatch g ts b (c :: s2) ||
                      (atomMatch a c && rmatch g (.star a :: ts) false s2)) from rfl]
              rw [ih g hg]
              simp
  | starStepR a c ts b s ha _ ih =>
      intro f hf
      match f with
      | g + 1 =>
          have hg : (RTok.star a :: ts).length + s.length < g := by
            simp only [List.length_cons] at hf ⊢
            omega
          rw [show rmatch (g + 1) (.star a :: ts) b (c :: s) =
                (rmatch g ts b (c :: s) ||
                  (atomMatch a c && rmatch g (.star a :: ts) false s)) from rfl]
          rw [ha, ih g hg]
          simp

/-- `stdRegexMatch` agrees with the relational semantics once the pattern
parses. -/
theorem stdRegexMatch_iff {pat : String} {ts : List RTok}
    (h : parseRegex pat.data = some ts) (n : String) :
    stdRegexMatch pat n = true ↔ RMatches ts true n.data := by
  unfold stdRegexMatch
  rw [h]
  constructor
  · exact rmatch_sound _ ts true n.data
  · intro hm
    exact rmatch_complete hm _ (by omega)

/-- The token list of a literal character sequence. -/
def litToks (w : List Char) : List RTok := w.map (fun c => RTok.atom (RAtom.lit c))

theorem RMatches_litToks_end (w : List Char) :
    ∀ (b : Bool) (s : List Char),
      RMatches (litToks w ++ [RTok.endAnchor]) b s ↔ s = w := by
  induction w with
  | nil =>
      intro b s
      simp only [litToks, List.map_nil, List.nil_append]
      constructor
      · intro h
        cases h with
        | endR ts b h2 => rfl
      · rintro rfl
        exact .endR [] b (.nilR b)
  | cons c w ih =>
      intro b s
      simp only [litToks, List.map_cons, List.cons_append]
      constructor
      · intro h
        cases h with
        | atomR a d ts b2 s2 hd hrest =>
            have hc : c = d := by simpa [atomMatch] using hd
            have hs2 : s2 = w := (ih false s2).1 (by simpa [litToks] using hrest)
            rw [hc, hs2]
      · rintro rfl
        exact .atomR (RAtom.lit c) c (litToks w ++ [RTok.endAnchor]) b w
          (by simp [atomMatch]) ((ih false w).2 rfl)

theorem RMatches_trailing_star_dot :
    ∀ (s : List Char) (b : Bool), RMatches [RTok.star RAtom.dot] b s := by
  intro s
  induction s with
  | nil => intro b; exact .starSkipR RAtom.dot [] b [] (.nilR b)
  | cons c s ih => intro b; exact .starStepR RAtom.dot c [] b s rfl (ih false)

theorem RMatches_litToks_star (w : List Char) :
    ∀ (b : Bool) (s : List Char),
      RMatches (litToks w ++ [RTok.star RAtom.dot]) b s ↔ ∃ t, s = w ++ t := by
  induction w with
  | nil =>
      intro b s
      simp only [litToks, List.map_nil, List.nil_append]
      constructor
      · intro _
        exact ⟨s, rfl⟩
      · intro _
        exact RMatches_trailing_star_dot s b
  | cons c w ih =>
      intro b s
      simp only [litToks, List.map_cons, List.cons_append]
      constructor
      · intro h
        cases h with
        | atomR a d ts b2 s2 hd hrest =>
            have hc : c = d := by simpa [atomMatch] using hd
            obtain ⟨t, ht⟩ := (ih false s2).1 (by simpa [litToks] using hrest)
            exact ⟨t, by rw [hc, ht]⟩
      · rintro ⟨t, rfl⟩
        exact .atomR (RAtom.lit c) c (litToks w ++ [RTok.star RAtom.dot]) b (w ++ t)
          (by simp [atomMatch]) ((ih false (w ++ t)).2 ⟨t, rfl⟩)

/-- Whether a token list contains no `^` anchor (such a list's acceptance
does not depend on the `atStart` flag). -/
def startFree : List RTok → Bool
  | [] => true
  | .startAnchor :: _ => false
  | _ :: ts => startFree ts

theorem RMatches_b_irrel : ∀ {ts : List RTok} {b : Bool} {s : List Char},
    RMatches ts b s → ∀ b' : Bool, startFree ts = true → RMatches ts b' s := by
  intro ts b s h
  induction h with
  | nilR b => intro b' _; exact .nilR b'
  | startR ts s h ih =>
      intro b' hsf
      exact absurd hsf (by simp [startFree])
  | endR ts b h ih =>
      intro b' hsf
      exact .endR ts b' (ih b' (by simpa [startFree] using hsf))
  | atomR a c ts b s ha h ih =>
      intro b' hsf
      exact .atomR a c ts b' s ha h
  | starSkipR a ts b s h ih =>
      intro b' hsf
      exact .starSkipR a ts b' s (ih b' (by simpa [startFree] using hsf))
  | starStepR a c ts b s ha h ih =>
      intro b' hsf
      exact .starStepR a c ts b' s ha h

theorem RMatches_star_dot_prepend {ts : List RTok} (hsf : startFree ts = true) :
    ∀ (s1 : List Char) (b : Bool) (s2 : List Char),
      RMatches ts false s2 → RMatches (RTok.star RAtom.dot :: ts) b (s1 ++ s2) := by
  intro s1
  induction s1 with
  | nil =>
      intro b s2 h
      exact .starSkipR RAtom.dot ts b s2 (RMatches_b_irrel h b hsf)
  | cons c s1 ih =>
      intro b s2 h
      exact .starStepR RAtom.dot c ts b (s1 ++ s2) rfl (ih false s2 h)

theorem RMatches_leading_star_dot {ts : List RTok} (hsf : startFree ts = true) :
    ∀ (b : Bool) (s : List Char),
      RMatches (RTok.star RAtom.dot :: ts) b s ↔
        ∃ s1 s2, s = s1 ++ s2 ∧ RMatches ts b s2 := by
  intro b s
  constructor
  · intro h
    induction s generalizing b with
    | nil =>
        cases h with
        | starSkipR a ts b s h2 => exact ⟨[], [], rfl, h2⟩
    | cons c s2 ih =>
        cases h with
        | starSkipR a ts b s h2 => exact ⟨[], c :: s2, rfl, h2⟩
        | starStepR a d ts b s ha h2 =>
            obtain ⟨s1, s3, heq, hts⟩ := ih false h2
            exact ⟨c :: s1, s3, by rw [heq]; rfl, RMatches_b_irrel hts b hsf⟩
  · rintro ⟨s1, s2, rfl, hts⟩
    exact RMatches_star_dot_prepend hsf s1 b s2 (RMatches_b_irrel hts false hsf)

theorem RMatches_exactToks (w s : List Char) :
    RMatches (RTok.startAnchor :: (litToks w ++ [RTok.endAnchor])) true s ↔ s = w := by
  constructor
  · intro h
    cases h with
    | startR ts s h2 => exact (RMatches_litToks_end w true s).1 h2
  · intro h
    exact .startR (litToks w ++ [RTok.endAnchor]) s ((RMatches_litToks_end w true s).2 h)

theorem startFree_litToks_star (w : List Char) :
    startFree (litToks w ++ [RTok.star RAtom.dot]) = true := by
  induction w with
  | nil => rfl
  | cons c w ih => simpa [litToks, startFree] using ih

theorem RMatches_containsToks (w s : List Char) :
    RMatches (RTok.star RAtom.dot :: (litToks w ++ [RTok.star RAtom.dot])) true s ↔
      w <:+: s := by
  rw [RMatches_leading_star_dot (startFree_litToks_star w)]
  constructor
  · rintro ⟨s1, s2, rfl, h2⟩
    obtain ⟨t, rfl⟩ := (RMatches_litToks_star w true s2).1 h2
    exact ⟨s1, t, by simp⟩
  · rintro ⟨s1, t, rfl⟩
    exact ⟨s1, w ++ t, by simp, (RMatches_litToks_star w true (w ++ t)).2 ⟨t, rfl⟩⟩

/-- "Plain" characters: lowercase ASCII letters, digits, underscore.  These
are the characters on which `exact`/`contains` realize exact/substring
semantics: they are not regex metacharacters and are fixed by lowercasing. -/
def plainChar (c : Char) : Bool :=
  (97 ≤ c.toNat && c.toNat ≤ 122) || (48 ≤ c.toNat && c.toNat ≤ 57) || (c.toNat == 95)

theorem plainChar_bounds {c : Char} (h : plainChar c = true) :
    (97 ≤ c.toNat ∧ c.toNat ≤ 122) ∨ (48 ≤ c.toNat ∧ c.toNat ≤ 57) ∨ c.toNat = 95 := by
  have h2 : ((97 ≤ c.toNat ∧ c.toNat ≤ 122) ∨ (48 ≤ c.toNat ∧ c.toNat ≤ 57)) ∨
      c.toNat = 95 := by
    simpa [plainChar, Bool.or_eq_true, Bool.and_eq_true, decide_eq_true_eq] using h
  tauto

theorem plain_beq_false {c d : Char} (h : plainChar c = true)
    (hd : ¬((97 ≤ d.toNat ∧ d.toNat ≤ 122) ∨ (48 ≤ d.toNat ∧ d.toNat ≤ 57) ∨
            d.toNat = 95)) :
    (c == d) = false := by
  have hb := plainChar_bounds h
  rw [beq_eq_false_iff_ne]
  rintro rfl
  exact hd hb

theorem plain_ne {c d : Char} (h : plainChar c = true)
    (hd : ¬((97 ≤ d.toNat ∧ d.toNat ≤ 122) ∨ (48 ≤ d.toNat ∧ d.toNat ≤ 57) ∨
            d.toNat = 95)) :
    c ≠ d := by
  have hb := plainChar_bounds h
  rintro rfl
  exact hd hb

theorem plain_not_meta {c : Char} (h : plainChar c = true) : isRegexMeta c = false := by
  unfold isRegexMeta
  rw [plain_beq_false h (d := Char.ofNat 46) (by decide),
    plain_beq_false h (d := Char.ofNat 42) (by decide),
    plain_beq_false h (d := Char.ofNat 94) (by decide),
    plain_beq_false h (d := Char.ofNat 36) (by decide),
    plain_beq_false h (d := Char.ofNat 92) (by decide),
    plain_beq_false h (d := Char.ofNat 43) (by decide),
    plain_beq_false h (d := Char.ofNat 63) (by decide),
    plain_beq_false h (d := Char.ofNat 40) (by decide),
    plain_beq_false h (d := Char.ofNat 41) (by decide),
    plain_beq_false h (d := Char.ofNat 91) (by decide),
    plain_beq_false h (d := Char.ofNat 93) (by decide),
    plain_beq_false h (d := Char.ofNat 124) (by decide),
    plain_beq_false h (d := Char.ofNat 123) (by decide),
    plain_beq_false h (d := Char.ofNat 125) (by decide)]
  rfl

theorem plain_toLower_fix {c : Char} (h : plainChar c = true) : c.toLower = c := by
  have hb := plainChar_bounds h
  unfold Char.toLower
  rw [if_neg]
  omega

theorem map_toLower_fix : ∀ l : List Char, (∀ c ∈ l, plainChar c = true) →
    l.map Char.toLower = l := by
  intro l
  induction l with
  | nil => intro _; rfl
  | cons c l ih =>
      intro h
      simp only [List.map_cons, plain_toLower_fix (h c (List.mem_cons_self c l)),
        ih (fun d hd => h d (List.mem_cons_of_mem c hd))]

theorem parseAtom_plain {c : Char} (h : plainChar c = true) :
    parseAtom c = some (RAtom.lit c) := by
  have h3 : (c == '.') = false := plain_beq_false h (by decide)
  have h4 : isRegexMeta c = false := plain_not_meta h
  simp [parseAtom, h3, h4]

theorem parseHead_plain {c : Char} (h : plainChar c = true) :
    parseHead c = some (RTok.atom (RAtom.lit c)) := by
  have h1 : c ≠ '^' := plain_ne h (by decide)
  have h2 : c ≠ '$' := plain_ne h (by decide)
  simp [parseHead, h1, h2, parseAtom_plain h]

theorem parseRegex_cons_of_head_ne_star (c : Char) (rest : List Char)
    (hrest : rest.head? ≠ some '*') :
    parseRegex (c :: rest) =
      match parseHead c with
      | some t => (parseRegex rest).map (fun ts => t :: ts)
      | none => none := by
  cases rest with
  | nil => cases h : parseHead c <;> simp [parseRegex, h]
  | cons d r2 =>
      have hd : ¬(d = '*') := by
        intro h
        exact hrest (by simp [h])
      simp [parseRegex, hd]

theorem parseRegex_plain_prepend (w : List Char) :
    ∀ (rest : List Char) (ts : List RTok), (∀ c ∈ w, plainChar c = true) →
      parseRegex rest = some ts → rest.head? ≠ some '*' →
      parseRegex (w ++ rest) = some (litToks w ++ ts) := by
  induction w with
  | nil =>
      intro rest ts _ h _
      simpa [litToks] using h
  | cons c w ih =>
      intro rest ts hw hrest hns
      have hc := hw c (List.mem_cons_self c w)
      have htail := ih rest ts (fun d hd => hw d (List.mem_cons_of_mem c hd)) hrest hns
      have hns2 : (w ++ rest).head? ≠ some '*' := by
        cases w with
        | nil => simpa using hns
        | cons e w2 =>
            have he := hw e (List.mem_cons_of_mem c (List.mem_cons_self e w2))
            simp only [List.cons_append, List.head?_cons, ne_eq, Option.some.injEq]
            exact plain_ne he (by decide)
      rw [show (c :: w) ++ rest = c :: (w ++ rest) from rfl]
      rw [parseRegex_cons_of_head_ne_star c (w ++ rest) hns2]
      rw [parseHead_plain hc, htail]
      simp [litToks]

theorem parse_exact_pattern (w : List Char) (hw : ∀ c ∈ w, plainChar c = true) :
    parseRegex ('^' :: (w ++ ['$'])) =
      some (RTok.startAnchor :: (litToks w ++ [RTok.endAnchor])) := by
  have h1 : parseRegex ['$'] = some [RTok.endAnchor] := by
    simp [parseRegex, parseHead]
  have h2 := parseRegex_plain_prepend w ['$'] [RTok.endAnchor] hw h1 (by decide)
  have hns : (w ++ ['$']).head? ≠ some '*' := by
    cases w with
    | nil => decide
    | cons e w2 =>
        have he := hw e (List.mem_cons_self e w2)
        simp only [List.cons_append, List.head?_cons, ne_eq, Option.some.injEq]
        exact plain_ne he (by decide)
  rw [parseRegex_cons_of_head_ne_star '^' (w ++ ['$']) hns, h2]
  rfl

theorem parse_contains_pattern (w : List Char) (hw : ∀ c ∈ w, plainChar c = true) :
    parseRegex ('.' :: '*' :: (w ++ ['.', '*'])) =
      some (RTok.star RAtom.dot :: (litToks w ++ [RTok.star RAtom.dot])) := by
  have h1 : parseRegex ['.', '*'] = some [RTok.star RAtom.dot] := by
    simp [parseRegex, parseAtom]
  have h2 := parseRegex_plain_prepend w ['.', '*'] [RTok.star RAtom.dot] hw h1 (by decide)
  rw [show parseRegex ('.' :: '*' :: (w ++ ['.', '*'])) =
        (parseRegex (w ++ ['.', '*'])).map (fun ts => RTok.star RAtom.dot :: ts) from by
      simp [parseRegex, parseAtom]]
  rw [h2]
  rfl

/-- C8 counterexample: exactness does not hold for every string.  The
matcher built from `exact: "a.b"` is the anchored regex `^a.b$`, which also
matches `"axb" ≠ "a.b"` (the dot is an unescaped metacharacter), and the
matcher built from `exact: "Foo"` is `^foo$` (the value is lowercased),
which fails to match `"Foo"` itself. -/
theorem factory_exact_cx :
    StatsIndexFactory.createStringMatcher (.exactS "a.b") = .ok (.regex "^a.b$") ∧
    CreatedMatcher.matches (.regex "^a.b$") "axb" = true ∧
    "axb" ≠ "a.b" ∧
    StatsIndexFactory.createStringMatcher (.exactS "Foo") = .ok (.regex "^foo$") ∧
    CreatedMatcher.matches (.regex "^foo$") "Foo" = false :=
  ⟨rfl, by decide, by decide, rfl, by decide⟩

/-- C8 amended (the claim restricted to the values the code honours):
`exact: s` is realized as the anchored regex `^…$` over the lowercased
value and `contains: s` as the wildcard-wrapped regex `.*….*` over the
lowercased value; for every `s` consisting of plain characters (lowercase
ASCII letters, digits, underscore) the exact matcher matches `n` iff
`n = s` and the contains matcher matches `n` iff `s` occurs in `n` as a
substring — but not for arbitrary `s`: uppercase letters are lowercased
and regex metacharacters are not escaped, so exactness fails there. -/
theorem factory_exact_contains_semantics (s n : String)
    (hs : ∀ c ∈ s.data, plainChar c = true) :
    (∃ M, StatsIndexFactory.createStringMatcher (.exactS s) = .ok M ∧
       (M.matches n = true ↔ n = s)) ∧
    (∃ M, StatsIndexFactory.createStringMatcher (.containsS s) = .ok M ∧
       (M.matches n = true ↔ s.data <:+: n.data)) := by
  have hfix : s.data.map Char.toLower = s.data := map_toLower_fix s.data hs
  constructor
  · have hdata : ("^" ++ replaceAllToLower s ++ "$").data = '^' :: (s.data ++ ['$']) := by
      simp [replaceAllToLower, hfix]
    have hparse : parseRegex ("^" ++ replaceAllToLower s ++ "$").data =
        some (RTok.startAnchor :: (litToks s.data ++ [RTok.endAnchor])) := by
      rw [hdata]
      exact parse_exact_pattern s.data hs
    have hM : StatsIndexFactory.createStringMatcher (.exactS s) =
        .ok (.regex ("^" ++ replaceAllToLower s ++ "$")) := by
      have hred : StatsIndexFactory.createStringMatcher (.exactS s) =
          StatsIndexFactory.mkRegexMatcher ("^" ++ replaceAllToLower s ++ "$") := rfl
      rw [hred]
      unfold StatsIndexFactory.mkRegexMatcher parseStdRegex
      rw [hparse]
    refine ⟨_, hM, ?_⟩
    show stdRegexMatch ("^" ++ replaceAllToLower s ++ "$") n = true ↔ n = s
    rw [stdRegexMatch_iff hparse n, RMatches_exactToks s.data n.data]
    exact ⟨String.ext, fun h => by rw [h]⟩
  · have hdata : (".*" ++ replaceAllToLower s ++ ".*").data =
        '.' :: '*' :: (s.data ++ ['.', '*']) := by
      simp [replaceAllToLower, hfix]
    have hparse : parseRegex (".*" ++ replaceAllToLower s ++ ".*").data =
        some (RTok.star RAtom.dot :: (litToks s.data ++ [RTok.star RAtom.dot])) := by
      rw [hdata]
      exact parse_contains_pattern s.data hs
    have hM : StatsIndexFactory.createStringMatcher (.containsS s) =
        .ok (.regex (".*" ++ replaceAllToLower s ++ ".*")) := by
      have hred : StatsIndexFactory.createStringMatcher (.containsS s) =
          StatsIndexFactory.mkRegexMatcher (".*" ++ replaceAllToLower s ++ ".*") := rfl
      rw [hred]
      unfold StatsIndexFactory.mkRegexMatcher parseStdRegex
      rw [hparse]
    refine ⟨_, hM, ?_⟩
    show stdRegexMatch (".*" ++ replaceAllToLower s ++ ".*") n = true ↔ s.data <:+: n.data
    rw [stdRegexMatch_iff hparse n, RMatches_containsToks s.data n.data]

/-- Concrete instantiation of `factory_exact_contains_semantics` at
`s := "foo"`, `n := "xfooy"`. -/
theorem factory_exact_contains_semantics_witness :
    (∃ M, StatsIndexFactory.createStringMatcher (.exactS "foo") = .ok M ∧
       (M.matches "xfooy" = true ↔ "xfooy" = "foo")) ∧
    (∃ M, StatsIndexFactory.createStringMatcher (.containsS "foo") = .ok M ∧
       (M.matches "xfooy" = true ↔ "foo".data <:+: "xfooy".data)) :=
  factory_exact_contains_semantics "foo" "xfooy" (by decide)

end EnvoyStats
